import Mathlib

/-!
Verification development for the BizPulse auto data cleaner (src/app.py).

The script loads a CSV into a pandas DataFrame and runs, in order:
null-value filling, duplicate-row removal, constant-column removal,
column-name cleaning, z-score outlier removal, and data-type correction.
Here the DataFrame is embedded shallowly: cells are a five-way sum type,
machine floats are modelled as rationals, and each stage of the script
is a Lean function on frames. Stage boundaries and decision rules follow
the lines of src/app.py cited next to each definition.
-/

set_option maxRecDepth 4000

attribute [local semireducible] Rat.add Rat.mul Rat.inv Rat.sub Rat.ofScientific

namespace BizPulse

/-- Cell values of a frame. A cell is either the explicit missing marker
(NaN in pandas), an integer, a float (modelled as a rational), a string,
or a datetime (modelled as an integer code). -/
inductive Value where
  | na : Value
  | int : Int → Value
  | float : ℚ → Value
  | str : String → Value
  | date : Int → Value
  deriving DecidableEq

/-- Column dtypes that occur in the script: object (text), int64, float64,
and datetime64. -/
inductive Dtype where
  | object : Dtype
  | int64 : Dtype
  | float64 : Dtype
  | datetime64 : Dtype
  deriving DecidableEq

/-- A data frame: an ordered header of named, typed columns, and a list of
rows, each row a list of cells aligned with the header. -/
structure Frame where
  header : List (String × Dtype)
  rows : List (List Value)
  deriving DecidableEq

/-- A frame is rectangular when every row has exactly one cell per header
entry. -/
def Rect (f : Frame) : Prop :=
  ∀ r ∈ f.rows, r.length = f.header.length

instance (f : Frame) : Decidable (Rect f) := by
  unfold Rect; infer_instance

/-- Column j of a list of rows, read with the missing marker as default. -/
def getCol (rows : List (List Value)) (j : Nat) : List Value :=
  rows.map (fun r => r.getD j Value.na)

/-- Write the cells of vals into position j of the successive rows. -/
def setColAux (j : Nat) : List (List Value) → List Value → List (List Value)
  | [], _ => []
  | r :: rs, [] => r :: rs
  | r :: rs, v :: vs => r.set j v :: setColAux j rs vs

/-- Numeric view of a cell: integers and floats give a rational, everything
else (including the missing marker) gives none. -/
def asQ? : Value → Option ℚ
  | .int n => some (n : ℚ)
  | .float q => some q
  | _ => none

/-- Combine an optional head and an optional tail; any failure wins. -/
def consOpt : Option Value → Option (List Value) → Option (List Value)
  | some v, some vs => some (v :: vs)
  | _, _ => none

/-- All-or-nothing sequencing of a list of optional results. -/
def seqOpt : List (Option Value) → Option (List Value)
  | [] => some []
  | o :: os => consOpt o (seqOpt os)

/-- Insertion into a sorted list of rationals. -/
def insQ (x : ℚ) : List ℚ → List ℚ
  | [] => [x]
  | y :: ys => if x ≤ y then x :: y :: ys else y :: insQ x ys

/-- Insertion sort for rationals (used only to define the median). -/
def sortQ : List ℚ → List ℚ
  | [] => []
  | x :: xs => insQ x (sortQ xs)

/-- Median of a list of rationals, as pandas computes it: for odd length the
middle order statistic, for even positive length the mean of the two middle
order statistics, and undefined (none) for the empty list. -/
def median? (qs : List ℚ) : Option ℚ :=
  if qs = [] then none
  else
    let s := sortQ qs
    let n := s.length
    if n % 2 = 1 then some (s.getD (n / 2) 0)
    else some ((s.getD (n / 2 - 1) 0 + s.getD (n / 2) 0) / 2)

/-- Null handling for one column, from src/app.py lines 48-62: a column with
at least one missing cell is filled, object columns with the string
"Unknown", other columns with the column median over the non-missing cells.
When the median is undefined (no numeric cell, e.g. a fully missing numeric
column) pandas fillna with NaN changes nothing, so the column stays as it
is. -/
def fillCol (dt : Dtype) (vals : List Value) : List Value :=
  if vals.any (fun v => v == Value.na) then
    if dt = Dtype.object then
      vals.map (fun v => if v = Value.na then Value.str "Unknown" else v)
    else
      match median? (vals.filterMap asQ?) with
      | some m => vals.map (fun v => if v = Value.na then Value.float m else v)
      | none => vals
  else vals

/-- Apply a per-column transformation (new dtype and new cells) to column j
of a frame. -/
def stepCol (g : Dtype → List Value → Dtype × List Value) (f : Frame) (j : Nat) : Frame :=
  match f.header[j]? with
  | none => f
  | some (nm, dt) =>
    let p := g dt (getCol f.rows j)
    { header := f.header.set j (nm, p.1), rows := setColAux j f.rows p.2 }

/-- Fold a per-column transformation over a list of column indices. -/
def foldCols (g : Dtype → List Value → Dtype × List Value) : List Nat → Frame → Frame
  | [], f => f
  | j :: js, f => foldCols g js (stepCol g f j)

/-- Apply a per-column transformation to every column, left to right, as the
per-column loops of the script do. -/
def mapCols (g : Dtype → List Value → Dtype × List Value) (f : Frame) : Frame :=
  foldCols g (List.range f.header.length) f

/-- The null-handling stage, src/app.py lines 48-62. -/
def nullHandle (f : Frame) : Frame :=
  mapCols (fun dt vals => (dt, fillCol dt vals)) f

/-- Total number of missing cells of a frame (df.isnull().sum().sum()). -/
def nullTotal (f : Frame) : Nat :=
  (f.rows.map (fun r => r.countP (fun v => v == Value.na))).sum

/-- Keep-first duplicate dropping, src/app.py line 69: seen accumulates all
earlier rows; a row equal to an earlier one is dropped. This mirrors
df.drop_duplicates() with the default keep equal to first. -/
def dropDupsAux : List (List Value) → List (List Value) → List (List Value)
  | _, [] => []
  | seen, r :: rest =>
    if r ∈ seen then dropDupsAux (r :: seen) rest
    else r :: dropDupsAux (r :: seen) rest

/-- Count of duplicate rows, src/app.py line 66: df.duplicated().sum() marks
every row equal to some earlier row. -/
def dupCountAux : List (List Value) → List (List Value) → Nat
  | _, [] => 0
  | seen, r :: rest => (if r ∈ seen then 1 else 0) + dupCountAux (r :: seen) rest

/-- The duplicate-removal stage, src/app.py lines 66-69. -/
def dropDups (f : Frame) : Frame :=
  { header := f.header, rows := dropDupsAux [] f.rows }

/-- The duplicate count the script reports. -/
def dupCount (f : Frame) : Nat := dupCountAux [] f.rows

/-- Distinct non-missing cell count of a column (pandas Series.nunique,
which excludes NaN). -/
def nuniqueVals (vals : List Value) : Nat :=
  ((vals.filter (fun v => !(v == Value.na))).dedup).length

/-- Indices of columns kept by the constant-column stage: those with at
least two distinct non-missing values (src/app.py line 76 drops columns
with df[col].nunique() <= 1). -/
def keepIdxs (f : Frame) : List Nat :=
  (List.range f.header.length).filter (fun j => 2 ≤ nuniqueVals (getCol f.rows j))

/-- The constant-column removal stage, src/app.py lines 76-80. -/
def pruneConst (f : Frame) : Frame :=
  { header := (keepIdxs f).map (fun j => f.header.getD j ("", Dtype.object)),
    rows := f.rows.map (fun r => (keepIdxs f).map (fun j => r.getD j Value.na)) }

/-- Number of constant columns the script reports removed. -/
def constCount (f : Frame) : Nat :=
  f.header.length - (keepIdxs f).length

/-- Python whitespace characters, as stripped by str.strip and matched by
the regex class backslash-s (ASCII part). -/
def pyIsSpace (c : Char) : Bool :=
  c == ' ' || c == '\t' || c == '\n' || c == '\r' || c == '\x0b' || c == '\x0c'

/-- Word characters of the regex class backslash-w, ASCII part: letters,
digits and the underscore. -/
def isWordChar (c : Char) : Bool :=
  c.isAlphanum || c == '_'

/-- Strip leading and trailing whitespace from a character list. -/
def pyTrim (l : List Char) : List Char :=
  ((l.dropWhile pyIsSpace).reverse.dropWhile pyIsSpace).reverse

/-- Column-name cleaning, src/app.py line 85: strip, lowercase, replace each
space by an underscore, then delete the characters that are neither word
characters nor whitespace. -/
def cleanName (l : List Char) : List Char :=
  ((((pyTrim l).map Char.toLower).map
      (fun c => if c = ' ' then '_' else c)).filter
    (fun c => isWordChar c || pyIsSpace c))

/-- Column-name cleaning on strings. -/
def cleanNameStr (s : String) : String :=
  String.mk (cleanName s.data)

/-- The column-name cleaning stage, src/app.py line 85. -/
def cleanNames (f : Frame) : Frame :=
  { header := f.header.map (fun p => (cleanNameStr p.1, p.2)), rows := f.rows }

/-- Indices of the numeric (int64 or float64) columns, as selected by
df.select_dtypes at src/app.py line 90. -/
def numericIdxs (f : Frame) : List Nat :=
  (List.range f.header.length).filter (fun j =>
    (f.header.getD j ("", Dtype.object)).2 == Dtype.int64 ||
    (f.header.getD j ("", Dtype.object)).2 == Dtype.float64)

/-- Mean and nine times the population variance of a column, the data of the
z-score comparison: a value v is flagged iff (v - mean) ^ 2 > 9 * variance,
which is exactly the absolute z-score exceeding 3 (scipy.stats.zscore uses
the population standard deviation). -/
def statsOf (qs : List ℚ) : ℚ × ℚ :=
  let n : ℚ := (qs.length : ℚ)
  let m := qs.sum / n
  (m, 9 * ((qs.map (fun q => (q - m) ^ 2)).sum / n))

/-- Numeric reading of a whole column: some list of rationals when every
cell is numeric, none otherwise. -/
def colQs? : List Value → Option (List ℚ)
  | [] => some []
  | v :: vs =>
    match asQ? v, colQs? vs with
    | some q, some qs => some (q :: qs)
    | _, _ => none

/-- Statistics of numeric column j of a frame, or none if some cell of the
column is not numeric (then scipy propagates NaN and that column flags no
row at all). -/
def colStats (f : Frame) (j : Nat) : Option (ℚ × ℚ) :=
  (colQs? (getCol f.rows j)).map statsOf

/-- Outlier test for one row, src/app.py lines 91-92: the row is an outlier
iff the absolute z-score of some numeric column exceeds 3. -/
def rowOutlier (f : Frame) (r : List Value) : Bool :=
  (numericIdxs f).any (fun j =>
    match colStats f j with
    | some (m, t) => decide ((((asQ? (r.getD j Value.na)).getD 0) - m) ^ 2 > t)
    | none => false)

/-- The outlier-removal stage, src/app.py lines 90-100: rows are scored
against the statistics of the frame as it stands before any removal, and
all flagged rows are removed in one pass. -/
def outlierFilter (f : Frame) : Frame :=
  { header := f.header, rows := f.rows.filter (fun r => !rowOutlier f r) }

/-- Number of outlier rows the script reports removed. -/
def outlierCount (f : Frame) : Nat :=
  f.rows.countP (fun r => rowOutlier f r)

/-- Value of a digit string. -/
def digitsVal (ds : List Char) : Nat :=
  ds.foldl (fun a c => a * 10 + (c.toNat - 48)) 0

/-- Read an optional leading sign; true means negative. -/
def readSign : List Char → Bool × List Char
  | '-' :: rest => (true, rest)
  | '+' :: rest => (false, rest)
  | l => (false, l)

/-- Read an optional exponent part (the whole remaining input must be the
exponent): empty input means exponent 0; otherwise e or E, an optional
sign and at least one digit. -/
def readExp? : List Char → Option Int
  | [] => some 0
  | c :: rest =>
    if c = 'e' ∨ c = 'E' then
      let p := readSign rest
      let ds := p.2.takeWhile Char.isDigit
      let r2 := p.2.dropWhile Char.isDigit
      if ds = [] ∨ r2 ≠ [] then none
      else some (if p.1 then -(digitsVal ds : Int) else (digitsVal ds : Int))
    else none

/-- Numeric parse of a string, modelling pd.to_numeric on one cell: an
optional sign, an integer part, an optional fractional part, an optional
exponent. A plain integer string gives an integer; a string with a point
or exponent gives a float. Surrounding whitespace is ignored. -/
def parseNum? (s : String) : Option Value :=
  let p := readSign (pyTrim s.data)
  let l := p.2
  let ip := l.takeWhile Char.isDigit
  let r1 := l.dropWhile Char.isDigit
  match r1 with
  | '.' :: r2 =>
    let fp := r2.takeWhile Char.isDigit
    let r3 := r2.dropWhile Char.isDigit
    if ip = [] ∧ fp = [] then none
    else
      match readExp? r3 with
      | none => none
      | some e =>
        let m : ℚ := (digitsVal ip : ℚ) + (digitsVal fp : ℚ) / (10 : ℚ) ^ fp.length
        some (Value.float ((if p.1 then -m else m) * (10 : ℚ) ^ e))
  | _ =>
    if ip = [] then none
    else
      match readExp? r1 with
      | none => none
      | some e =>
        if r1 = [] then
          some (Value.int (if p.1 then -(digitsVal ip : Int) else (digitsVal ip : Int)))
        else
          some (Value.float ((if p.1 then -(digitsVal ip : ℚ) else (digitsVal ip : ℚ)) * (10 : ℚ) ^ e))

/-- Date parse of a string, modelling pd.to_datetime on one cell for the
ISO form YYYY-MM-DD; the result is the integer code y * 10000 + m * 100 + d. -/
def parseDate? (s : String) : Option Value :=
  match pyTrim s.data with
  | [y1, y2, y3, y4, '-', m1, m2, '-', d1, d2] =>
    if [y1, y2, y3, y4, m1, m2, d1, d2].all Char.isDigit then
      let m := digitsVal [m1, m2]
      let d := digitsVal [d1, d2]
      if 1 ≤ m ∧ m ≤ 12 ∧ 1 ≤ d ∧ d ≤ 31 then
        some (Value.date ((digitsVal [y1, y2, y3, y4] : Int) * 10000 + (m : Int) * 100 + (d : Int)))
      else none
    else none
  | _ => none

/-- Cell-level numeric conversion for pd.to_numeric over an object column:
the missing marker passes through, numbers pass through, strings must
parse. -/
def cellToNum? : Value → Option Value
  | .na => some Value.na
  | .int n => some (Value.int n)
  | .float q => some (Value.float q)
  | .str s => parseNum? s
  | .date _ => none

/-- Cell-level datetime conversion for pd.to_datetime over an object
column: the missing marker passes through, strings must parse, integers
are taken as epoch codes, dates pass through. -/
def cellToDate? : Value → Option Value
  | .na => some Value.na
  | .int n => some (Value.date n)
  | .float _ => none
  | .str s => parseDate? s
  | .date n => some (Value.date n)

/-- Dtype pd.to_numeric gives a successfully converted column: int64 when
every cell is an integer, float64 as soon as a float or a missing marker
occurs. -/
def inferNumDtype (vals : List Value) : Dtype :=
  if vals.all (fun v => match v with | .int _ => true | _ => false) then Dtype.int64
  else Dtype.float64

/-- First k decimal digits of the fractional part of a non-negative
rational. -/
def fracDigits : ℚ → Nat → List Char
  | _, 0 => []
  | x, k + 1 =>
    let d := (x * 10).floor
    Char.ofNat (48 + d.toNat) :: fracDigits (x * 10 - (d : ℚ)) k

/-- Drop trailing zero digits. -/
def trimZeros (l : List Char) : List Char :=
  (l.reverse.dropWhile (fun c => c == '0')).reverse

/-- Positional decimal rendering of a non-negative rational, with the
fractional part truncated to 17 digits, as a model of the Python float
repr in its positional range. -/
def decRepr (a : ℚ) : String :=
  let f := trimZeros (fracDigits (a - (a.floor : ℚ)) 17)
  toString a.floor ++ "." ++ (if f = [] then "0" else String.mk f)

/-- Mantissa rendering inside the scientific form: integral mantissas are
printed without a point, as Python does in 1e+20. -/
def decReprSci (a : ℚ) : String :=
  if a = (a.floor : ℚ) then toString a.floor else decRepr a

/-- Smallest k such that a * 10 ^ k reaches 1, for the scientific rendering
of small positive rationals. -/
def smallExp (a : ℚ) : Nat :=
  match (List.range ((toString a.den).length + 1)).find? (fun k => 1 ≤ a * (10 : ℚ) ^ k) with
  | some k => k
  | none => 0

/-- String rendering of a float cell, modelling what str on a numpy float64
produces: 0.0 prints positionally, magnitudes of at least 10 ^ 16 and
positive magnitudes below 10 ^ -4 print in the scientific form with the
letter e, everything else prints positionally. -/
def floatRepr (q : ℚ) : String :=
  if q = 0 then "0.0"
  else
    let sgn := if q < 0 then "-" else ""
    let a := |q|
    if (10 : ℚ) ^ 16 ≤ a then
      let e := (toString a.floor).length - 1
      sgn ++ decReprSci (a / (10 : ℚ) ^ e) ++ "e+" ++ toString e
    else if a < 1 / (10 : ℚ) ^ 4 then
      let k := smallExp a
      sgn ++ decReprSci (a * (10 : ℚ) ^ k) ++ "e-" ++
        (if k < 10 then "0" ++ toString k else toString k)
    else sgn ++ decRepr a

/-- String rendering of a cell under astype(str), src/app.py line 123: the
missing marker renders as nan, integers and floats as their Python
renderings. -/
def render : Value → String
  | .na => "nan"
  | .int n => toString n
  | .float q => floatRepr q
  | .str s => s
  | .date n => toString n

/-- Does the string contain an ASCII letter, as the regex [a-zA-Z] of
src/app.py line 123 tests. -/
def containsAlpha (s : String) : Bool :=
  s.data.any Char.isAlpha

/-- Type correction for one column, src/app.py lines 106-125. An object
column is first tried wholly as numeric, then wholly as datetime, each
all-or-nothing; a numeric column whose rendering contains a letter in some
cell is converted wholly to strings; other columns are untouched. -/
def typeCorrectCol (dt : Dtype) (vals : List Value) : Dtype × List Value :=
  match dt with
  | .object =>
    match seqOpt (vals.map cellToNum?) with
    | some ws => (inferNumDtype ws, ws)
    | none =>
      match seqOpt (vals.map cellToDate?) with
      | some ws => (Dtype.datetime64, ws)
      | none => (Dtype.object, vals)
  | .int64 =>
    if vals.any (fun v => containsAlpha (render v)) then
      (Dtype.object, vals.map (fun v => Value.str (render v)))
    else (Dtype.int64, vals)
  | .float64 =>
    if vals.any (fun v => containsAlpha (render v)) then
      (Dtype.object, vals.map (fun v => Value.str (render v)))
    else (Dtype.float64, vals)
  | .datetime64 => (Dtype.datetime64, vals)

/-- The type-correction stage, src/app.py lines 102-125. -/
def typeCorrect (f : Frame) : Frame :=
  mapCols typeCorrectCol f

/-- The full cleaning pipeline of src/app.py, lines 46-125, in the order of
the script: null handling, duplicate removal, constant-column removal,
column-name cleaning, outlier removal, type correction. -/
def pipeline (f : Frame) : Frame :=
  typeCorrect (outlierFilter (cleanNames (pruneConst (dropDups (nullHandle f)))))

/-- A cell is admissible for a dtype: the missing marker is admissible
everywhere, numeric columns hold integers and floats, datetime columns
hold dates, object columns hold anything. -/
def cellOk (dt : Dtype) (v : Value) : Prop :=
  match dt, v with
  | _, .na => True
  | .object, _ => True
  | .int64, .int _ => True
  | .int64, .float _ => True
  | .float64, .int _ => True
  | .float64, .float _ => True
  | .datetime64, .date _ => True
  | _, _ => False

instance (dt : Dtype) (v : Value) : Decidable (cellOk dt v) := by
  unfold cellOk
  rcases dt with _ | _ | _ | _ <;> rcases v with _ | _ | _ | _ | _ <;> infer_instance

/-- A frame is well typed when every cell is admissible for the dtype of
its column. -/
def WellTyped (f : Frame) : Prop :=
  ∀ j, j < f.header.length → ∀ r ∈ f.rows,
    cellOk (f.header.getD j ("", Dtype.object)).2 (r.getD j Value.na)

instance (f : Frame) : Decidable (WellTyped f) := by
  unfold WellTyped; infer_instance

/-- The dtypes a CSV load produces: object, int64 or float64 (read_csv
never yields datetime columns without an explicit parse request). -/
def CsvDtypes (f : Frame) : Prop :=
  ∀ p ∈ f.header, p.2 ≠ Dtype.datetime64

instance (f : Frame) : Decidable (CsvDtypes f) := by
  unfold CsvDtypes; infer_instance

/-- Does the character list start with the given pattern. -/
def startsWith : List Char → List Char → Bool
  | _, [] => true
  | [], _ :: _ => false
  | c :: cs, p :: ps => c == p && startsWith cs ps

/-- Does the character list contain the given pattern as a contiguous
substring. -/
def hasSub : List Char → List Char → Bool
  | [], pat => startsWith [] pat
  | c :: cs, pat => startsWith (c :: cs) pat || hasSub cs pat

/-- Modelled from the spec: the Category Standardizer stage is not present
in src/app.py (the spec, section 2, describes two near-duplicate source
variants and src/ holds only one); this token normalization follows the
spec, section 4.7: trim whitespace and lowercase every value. -/
def normTok (s : String) : String :=
  String.mk ((pyTrim s.data).map Char.toLower)

/-- Modelled from the spec, section 4.7: the gender mapping of the Category
Standardizer: recognized tokens m and male map to male, f and female map
to female, everything else (unrecognized, empty or null-like) maps to
unknown. -/
def genderMap (s : String) : String :=
  let t := normTok s
  if t = "m" ∨ t = "male" then "male"
  else if t = "f" ∨ t = "female" then "female"
  else "unknown"

/-- Modelled from the spec, section 4.7: the Category Standardizer applied
to one column: it acts on text columns with fewer than 50 distinct values;
when the normalized column name contains the substring gender, every
string cell goes through the gender mapping. -/
def stdCatCol (name : String) (dt : Dtype) (vals : List Value) : List Value :=
  if dt = Dtype.object ∧ nuniqueVals vals < 50 ∧ hasSub name.data "gender".data then
    vals.map (fun v => match v with | .str s => Value.str (genderMap s) | w => w)
  else vals

/-- Claim-side reading of the Duplicate Remover contract: walk the rows in
order, keeping a row exactly when it differs from every earlier row; pre
accumulates the earlier rows in order. -/
def keepFirstGo : List (List Value) → List (List Value) → List (List Value)
  | _, [] => []
  | pre, r :: rest =>
    (if r ∈ pre then [] else [r]) ++ keepFirstGo (pre ++ [r]) rest

/-- Claim-side reading of the name invariant: every character of the name
is a lowercase ASCII letter, an ASCII digit, or an underscore. -/
def namePatOk (s : String) : Prop :=
  ∀ c ∈ s.data, ('a' ≤ c ∧ c ≤ 'z') ∨ ('0' ≤ c ∧ c ≤ '9') ∨ c = '_'

instance (s : String) : Decidable (namePatOk s) := by
  unfold namePatOk; infer_instance

/-- Claim-side reading of the outlier bound: in every numeric column of the
frame whose cells are all numeric, every cell is within three population
standard deviations of the mean of that column as the column now stands;
stated squared, (v - mean) ^ 2 <= 9 * variance. -/
def zBoundOk (f : Frame) : Prop :=
  ∀ j ∈ numericIdxs f, ∀ p, colStats f j = some p →
    ∀ r ∈ f.rows, (((asQ? (r.getD j Value.na)).getD 0) - p.1) ^ 2 ≤ p.2

instance (f : Frame) : Decidable (zBoundOk f) := by
  unfold zBoundOk; infer_instance

/-- Example frame: one text column holding the strings 1.0 and 1.00, which
are distinct as strings but equal once converted to numbers. -/
def exD1 : Frame :=
  { header := [("x", Dtype.object)],
    rows := [[Value.str "1.0"], [Value.str "1.00"]] }

/-- Example frame: a single fully missing float column. -/
def exF2 : Frame :=
  { header := [("a", Dtype.float64)],
    rows := [[Value.na], [Value.na]] }

/-- Example frame: one numeric column with ten zeros and a one; on eleven
points the single one has z-score sqrt 10 which exceeds 3. -/
def exF3 : Frame :=
  { header := [("x", Dtype.int64)],
    rows := [[Value.int 0], [Value.int 0], [Value.int 0], [Value.int 0], [Value.int 0],
             [Value.int 0], [Value.int 0], [Value.int 0], [Value.int 0], [Value.int 0],
             [Value.int 1]] }

/-- Example frame with no numeric column. -/
def exF3w : Frame :=
  { header := [("t", Dtype.object)],
    rows := [[Value.str "a"], [Value.str "b"]] }

/-- A two-cell row of integers. -/
def mkRow2 (a b : Int) : List Value :=
  [Value.int a, Value.int b]

/-- Example frame with two numeric columns; the first holds ten zeros, a
five and a thousand. One pass removes only the thousand, after which the
five exceeds three standard deviations of the remaining column. -/
def exF4 : Frame :=
  { header := [("a", Dtype.int64), ("b", Dtype.int64)],
    rows := [mkRow2 0 0, mkRow2 0 1, mkRow2 0 2, mkRow2 0 3, mkRow2 0 4, mkRow2 0 5,
             mkRow2 0 6, mkRow2 0 7, mkRow2 0 8, mkRow2 0 9, mkRow2 5 10, mkRow2 1000 11] }

/-- Example frame with two numeric columns and no outliers. -/
def exF4w : Frame :=
  { header := [("a", Dtype.int64), ("b", Dtype.int64)],
    rows := [mkRow2 0 0, mkRow2 0 1, mkRow2 2 2, mkRow2 2 3] }

/-- Example frame: a text column with a missing cell next to a fully
missing float column. -/
def exF5c : Frame :=
  { header := [("t", Dtype.object), ("m", Dtype.float64)],
    rows := [[Value.na, Value.na]] }

/-- Example frame: a text column and a float column, each with one missing
cell. -/
def exF5w : Frame :=
  { header := [("t", Dtype.object), ("m", Dtype.float64)],
    rows := [[Value.na, Value.float 1], [Value.str "x", Value.na], [Value.str "y", Value.float 3]] }

/-- Example frame: a text column whose cells all parse as numbers. -/
def exF6w : Frame :=
  { header := [("s", Dtype.object)],
    rows := [[Value.str "1"], [Value.str "2.5"]] }

/-- Example frame whose column name contains an interior tab. -/
def exF8c : Frame :=
  { header := [("a\tb", Dtype.object)],
    rows := [[Value.str "u"], [Value.str "v"]] }

/-- Example frame with an ordinary spaced column name. -/
def exF8w : Frame :=
  { header := [("My Col", Dtype.object)],
    rows := [[Value.str "u"], [Value.str "v"]] }

/-- The lowercase name alphabet of the claimed output pattern. -/
def lowerPatChars : List Char :=
  "abcdefghijklmnopqrstuvwxyz0123456789_".data

/-- Example frame of spec scenario 4: the row 1, a repeated three times. -/
def exF9 : Frame :=
  { header := [("n", Dtype.int64), ("s", Dtype.object)],
    rows := [[Value.int 1, Value.str "a"], [Value.int 1, Value.str "a"],
             [Value.int 1, Value.str "a"]] }

/-- Example frame: a float column holding only genuine numbers, one of
which renders in the scientific form. -/
def exF10 : Frame :=
  { header := [("v", Dtype.float64)],
    rows := [[Value.float ((10 : ℚ) ^ 20)], [Value.float 2]] }

theorem seqOpt_map_eq_some {g : Value → Option Value} : ∀ vals : List Value,
    (∀ v ∈ vals, (g v).isSome) →
    seqOpt (vals.map g) = some (vals.map (fun v => (g v).getD v))
  | [], _ => rfl
  | v :: vs, h => by
    obtain ⟨w, hw⟩ := Option.isSome_iff_exists.mp (h v (List.mem_cons_self v vs))
    have ih := seqOpt_map_eq_some vs (fun u hu => h u (List.mem_cons_of_mem v hu))
    simp [seqOpt, consOpt, hw, ih]

theorem seqOpt_map_eq_none {g : Value → Option Value} : ∀ vals : List Value,
    (∃ v ∈ vals, g v = none) → seqOpt (vals.map g) = none
  | v :: vs, h => by
    rcases h with ⟨u, hu, hnone⟩
    rcases List.mem_cons.mp hu with rfl | hu'
    · simp [seqOpt, consOpt, hnone]
    · have ih := seqOpt_map_eq_none vs ⟨u, hu', hnone⟩
      cases hgv : g v <;> simp [seqOpt, consOpt, ih]

theorem seqOpt_mem : ∀ os : List (Option Value), ∀ vs : List Value,
    seqOpt os = some vs → ∀ w ∈ vs, some w ∈ os
  | [], vs, h, w, hw => by
    simp [seqOpt] at h
    subst h
    simp at hw
  | o :: os, vs, h, w, hw => by
    cases o with
    | none => simp [seqOpt, consOpt] at h
    | some v =>
      cases hrest : seqOpt os with
      | none => rw [seqOpt, hrest] at h; simp [consOpt] at h
      | some vs' =>
        rw [seqOpt, hrest] at h
        simp only [consOpt, Option.some.injEq] at h
        subst h
        rcases List.mem_cons.mp hw with rfl | hw'
        · exact List.mem_cons_self _ _
        · exact List.mem_cons_of_mem _ (seqOpt_mem os vs' hrest w hw')

theorem seqOpt_length : ∀ os : List (Option Value), ∀ vs : List Value,
    seqOpt os = some vs → vs.length = os.length
  | [], vs, h => by simp [seqOpt] at h; subst h; rfl
  | o :: os, vs, h => by
    cases o with
    | none => simp [seqOpt, consOpt] at h
    | some v =>
      cases hrest : seqOpt os with
      | none => rw [seqOpt, hrest] at h; simp [consOpt] at h
      | some vs' =>
        rw [seqOpt, hrest] at h
        simp only [consOpt, Option.some.injEq] at h
        subst h
        simp [seqOpt_length os vs' hrest]

theorem getD_set_ne (l : List Value) (k j : Nat) (v : Value) (h : k ≠ j) :
    (l.set k v).getD j Value.na = l.getD j Value.na := by
  simp [List.getD_eq_getElem?_getD, List.getElem?_set_ne h]

theorem getD_set_self (l : List Value) (j : Nat) (v : Value) (h : j < l.length) :
    (l.set j v).getD j Value.na = v := by
  simp [List.getD_eq_getElem?_getD, List.getElem?_set_self h]

theorem getD_mem (l : List Value) (j : Nat) (h : j < l.length) :
    l.getD j Value.na ∈ l := by
  rw [List.getD_eq_getElem?_getD, List.getElem?_eq_getElem h]
  exact List.getElem_mem h

theorem getCol_length (rows : List (List Value)) (j : Nat) :
    (getCol rows j).length = rows.length :=
  List.length_map rows _

theorem mem_getCol {v : Value} {rows : List (List Value)} {j : Nat} :
    v ∈ getCol rows j ↔ ∃ r ∈ rows, r.getD j Value.na = v := by
  simp [getCol, List.mem_map]

theorem length_setColAux (j : Nat) : ∀ (rows : List (List Value)) (vals : List Value),
    (setColAux j rows vals).length = rows.length
  | [], _ => rfl
  | _ :: _, [] => rfl
  | r :: rs, v :: vs => by simp [setColAux, length_setColAux j rs vs]

theorem getCol_setColAux_ne {k j : Nat} (h : k ≠ j) :
    ∀ (rows : List (List Value)) (vals : List Value),
    getCol (setColAux k rows vals) j = getCol rows j
  | [], _ => rfl
  | _ :: _, [] => rfl
  | r :: rs, v :: vs => by
    show ((r.set k v).getD j Value.na) :: getCol (setColAux k rs vs) j
        = (r.getD j Value.na) :: getCol rs j
    rw [getD_set_ne r k j v h, getCol_setColAux_ne h rs vs]

theorem getCol_setColAux_self (j : Nat) : ∀ (rows : List (List Value)) (vals : List Value),
    (∀ r ∈ rows, j < r.length) → vals.length = rows.length →
    getCol (setColAux j rows vals) j = vals
  | [], [], _, _ => rfl
  | [], _ :: _, _, hlen => by simp at hlen
  | _ :: _, [], _, hlen => by simp at hlen
  | r :: rs, v :: vs, hlt, hlen => by
    show ((r.set j v).getD j Value.na) :: getCol (setColAux j rs vs) j = v :: vs
    rw [getD_set_self r j v (hlt r (List.mem_cons_self r rs)),
      getCol_setColAux_self j rs vs (fun u hu => hlt u (List.mem_cons_of_mem r hu))
        (by simpa using hlen)]

theorem cells_setColAux {Q : Value → Prop} (j : Nat) :
    ∀ (rows : List (List Value)) (vals : List Value),
    (∀ r ∈ rows, ∀ v ∈ r, Q v) → (∀ v ∈ vals, Q v) →
    ∀ r' ∈ setColAux j rows vals, ∀ v ∈ r', Q v
  | [], _, _, _, _, hr' => by simp [setColAux] at hr'
  | r :: rs, [], hrows, _, r', hr' => hrows r' hr'
  | r :: rs, v :: vs, hrows, hvals, r', hr' => by
    rcases List.mem_cons.mp hr' with rfl | hr''
    · intro w hw
      rcases List.mem_or_eq_of_mem_set hw with hwr | rfl
      · exact hrows r (List.mem_cons_self r rs) w hwr
      · exact hvals w (List.mem_cons_self w vs)
    · exact cells_setColAux j rs vs (fun u hu => hrows u (List.mem_cons_of_mem r hu))
        (fun u hu => hvals u (List.mem_cons_of_mem v hu)) r' hr''

theorem lengths_setColAux {n : Nat} (j : Nat) :
    ∀ (rows : List (List Value)) (vals : List Value),
    (∀ r ∈ rows, r.length = n) →
    ∀ r' ∈ setColAux j rows vals, r'.length = n
  | [], _, _, _, hr' => by simp [setColAux] at hr'
  | r :: rs, [], hrows, r', hr' => hrows r' hr'
  | r :: rs, v :: vs, hrows, r', hr' => by
    rcases List.mem_cons.mp hr' with rfl | hr''
    · simp [hrows r (List.mem_cons_self r rs)]
    · exact lengths_setColAux j rs vs (fun u hu => hrows u (List.mem_cons_of_mem r hu)) r' hr''

theorem stepCol_header_length (g : Dtype → List Value → Dtype × List Value)
    (f : Frame) (k : Nat) : (stepCol g f k).header.length = f.header.length := by
  cases hk : f.header[k]? with
  | none => simp [stepCol, hk]
  | some p => cases p; simp [stepCol, hk]

theorem stepCol_header_ne (g : Dtype → List Value → Dtype × List Value)
    (f : Frame) {k j : Nat} (h : k ≠ j) :
    (stepCol g f k).header[j]? = f.header[j]? := by
  cases hk : f.header[k]? with
  | none => simp [stepCol, hk]
  | some p => cases p; simp [stepCol, hk, List.getElem?_set_ne h]

theorem stepCol_col_ne (g : Dtype → List Value → Dtype × List Value)
    (f : Frame) {k j : Nat} (h : k ≠ j) :
    getCol (stepCol g f k).rows j = getCol f.rows j := by
  cases hk : f.header[k]? with
  | none => simp [stepCol, hk]
  | some p =>
    cases p
    simp only [stepCol, hk]
    exact getCol_setColAux_ne h f.rows _

theorem stepCol_rect {g : Dtype → List Value → Dtype × List Value}
    (hg : ∀ dt vals, ((g dt vals).2).length = vals.length)
    {f : Frame} (hf : Rect f) (k : Nat) : Rect (stepCol g f k) := by
  cases hk : f.header[k]? with
  | none => simpa [stepCol, hk] using hf
  | some p =>
    cases p with
    | mk nm dt =>
      intro r' hr'
      simp only [stepCol, hk] at hr' ⊢
      rw [List.length_set]
      exact lengths_setColAux k f.rows _ hf r' hr'

theorem stepCol_col_self {g : Dtype → List Value → Dtype × List Value}
    (hg : ∀ dt vals, ((g dt vals).2).length = vals.length)
    {f : Frame} (hf : Rect f) {j : Nat} {nm : String} {dt : Dtype}
    (h : f.header[j]? = some (nm, dt)) :
    (stepCol g f j).header[j]? = some (nm, (g dt (getCol f.rows j)).1) ∧
    getCol (stepCol g f j).rows j = (g dt (getCol f.rows j)).2 := by
  have hj : j < f.header.length := by
    rcases List.getElem?_eq_some.mp h with ⟨hlt, _⟩
    exact hlt
  constructor
  · simp [stepCol, h, List.getElem?_set_self hj]
  · simp only [stepCol, h]
    refine getCol_setColAux_self j f.rows _ (fun r hr => ?_) ?_
    · rw [hf r hr]; exact hj
    · rw [hg, getCol_length]

theorem foldCols_header_length (g : Dtype → List Value → Dtype × List Value) :
    ∀ (js : List Nat) (f : Frame),
    (foldCols g js f).header.length = f.header.length
  | [], _ => rfl
  | j :: js, f => by
    rw [foldCols, foldCols_header_length g js, stepCol_header_length]

theorem foldCols_rect {g : Dtype → List Value → Dtype × List Value}
    (hg : ∀ dt vals, ((g dt vals).2).length = vals.length) :
    ∀ (js : List Nat) (f : Frame), Rect f → Rect (foldCols g js f)
  | [], _, hf => hf
  | j :: js, f, hf => foldCols_rect hg js _ (stepCol_rect hg hf j)

theorem foldCols_notMem (g : Dtype → List Value → Dtype × List Value) :
    ∀ (js : List Nat) (f : Frame) (j : Nat), j ∉ js →
    getCol (foldCols g js f).rows j = getCol f.rows j ∧
    (foldCols g js f).header[j]? = f.header[j]?
  | [], _, _, _ => ⟨rfl, rfl⟩
  | k :: js, f, j, h => by
    have hkj : k ≠ j := fun e => h (e ▸ List.mem_cons_self k js)
    have hrec := foldCols_notMem g js (stepCol g f k) j (fun hj => h (List.mem_cons_of_mem k hj))
    exact ⟨hrec.1.trans (stepCol_col_ne g f hkj),
      hrec.2.trans (stepCol_header_ne g f hkj)⟩

theorem foldCols_append (g : Dtype → List Value → Dtype × List Value) :
    ∀ (as bs : List Nat) (f : Frame),
    foldCols g (as ++ bs) f = foldCols g bs (foldCols g as f)
  | [], _, _ => rfl
  | a :: as, bs, f => by
    rw [List.cons_append, foldCols, foldCols, foldCols_append g as bs]

theorem foldCols_range_col {g : Dtype → List Value → Dtype × List Value}
    (hg : ∀ dt vals, ((g dt vals).2).length = vals.length) :
    ∀ (m : Nat) (f : Frame), Rect f → ∀ {j : Nat} {nm : String} {dt : Dtype}, j < m →
    f.header[j]? = some (nm, dt) →
    (foldCols g (List.range m) f).header[j]? = some (nm, (g dt (getCol f.rows j)).1) ∧
    getCol (foldCols g (List.range m) f).rows j = (g dt (getCol f.rows j)).2 := by
  intro m
  induction m with
  | zero => intro f _ j nm dt hj; omega
  | succ m ih =>
    intro f hf j nm dt hj hh
    rw [List.range_succ, foldCols_append]
    rw [show ∀ h, foldCols g [m] h = stepCol g h m from fun _ => rfl]
    rcases Nat.lt_or_ge j m with hjm | hjm
    · have inner := ih f hf hjm hh
      have hmj : m ≠ j := by omega
      refine ⟨?_, ?_⟩
      · rw [stepCol_header_ne g _ hmj, inner.1]
      · rw [stepCol_col_ne g _ hmj, inner.2]
    · have hjem : j = m := by omega
      subst hjem
      have hnot : j ∉ List.range j := by simp
      have hpres := foldCols_notMem g (List.range j) f j hnot
      have hrect : Rect (foldCols g (List.range j) f) := foldCols_rect hg _ f hf
      have hstep := stepCol_col_self hg hrect (hpres.2.trans hh)
      rw [hpres.1] at hstep
      exact hstep

theorem mapCols_col {g : Dtype → List Value → Dtype × List Value}
    (hg : ∀ dt vals, ((g dt vals).2).length = vals.length)
    {f : Frame} (hf : Rect f) {j : Nat} {nm : String} {dt : Dtype}
    (h : f.header[j]? = some (nm, dt)) :
    (mapCols g f).header[j]? = some (nm, (g dt (getCol f.rows j)).1) ∧
    getCol (mapCols g f).rows j = (g dt (getCol f.rows j)).2 := by
  have hj : j < f.header.length := by
    rcases List.getElem?_eq_some.mp h with ⟨hlt, _⟩
    exact hlt
  exact foldCols_range_col hg f.header.length f hf hj h

theorem mapCols_rect {g : Dtype → List Value → Dtype × List Value}
    (hg : ∀ dt vals, ((g dt vals).2).length = vals.length)
    {f : Frame} (hf : Rect f) : Rect (mapCols g f) :=
  foldCols_rect hg _ f hf

theorem mapCols_header_length (g : Dtype → List Value → Dtype × List Value)
    (f : Frame) : (mapCols g f).header.length = f.header.length :=
  foldCols_header_length g _ f

theorem foldCols_cells {g : Dtype → List Value → Dtype × List Value}
    {Q : Value → Prop}
    (hQ : ∀ dt vals, (∀ v ∈ vals, Q v) → ∀ w ∈ (g dt vals).2, Q w) :
    ∀ (js : List Nat) (f : Frame), Rect f →
    (∀ dt vals, ((g dt vals).2).length = vals.length) →
    (∀ r ∈ f.rows, ∀ v ∈ r, Q v) →
    ∀ r ∈ (foldCols g js f).rows, ∀ v ∈ r, Q v
  | [], _, _, _, hcells => hcells
  | j :: js, f, hf, hg, hcells => by
    refine foldCols_cells hQ js (stepCol g f j) (stepCol_rect hg hf j) hg ?_
    cases hk : f.header[j]? with
    | none => simpa [stepCol, hk] using hcells
    | some p =>
      cases p with
      | mk nm dt =>
        have hj : j < f.header.length := by
          rcases List.getElem?_eq_some.mp hk with ⟨hlt, _⟩
          exact hlt
        simp only [stepCol, hk]
        refine cells_setColAux j f.rows _ hcells ?_
        refine hQ dt _ (fun v hv => ?_)
        rcases mem_getCol.mp hv with ⟨r, hr, rfl⟩
        exact hcells r hr _ (getD_mem r j (by rw [hf r hr]; exact hj))

theorem map_fill_id (w : Value) : ∀ vals : List Value, (∀ v ∈ vals, v ≠ Value.na) →
    vals.map (fun v => if v = Value.na then w else v) = vals
  | [], _ => rfl
  | v :: vs, h => by
    rw [List.map_cons, if_neg (h v (List.mem_cons_self v vs)),
      map_fill_id w vs (fun u hu => h u (List.mem_cons_of_mem v hu))]

theorem no_na_of_any_eq_false {vals : List Value}
    (h : vals.any (fun v => v == Value.na) = false) : ∀ v ∈ vals, v ≠ Value.na := by
  intro v hv
  have := List.any_eq_false.mp h v hv
  simpa using this

theorem fillCol_length (dt : Dtype) (vals : List Value) :
    (fillCol dt vals).length = vals.length := by
  unfold fillCol
  by_cases h : vals.any (fun v => v == Value.na)
  · by_cases hdt : dt = Dtype.object
    · simp [h, hdt]
    · cases hmed : median? (vals.filterMap asQ?) <;> simp [h, hdt, hmed]
  · simp [h]

theorem fillCol_object (vals : List Value) :
    fillCol Dtype.object vals
      = vals.map (fun v => if v = Value.na then Value.str "Unknown" else v) := by
  unfold fillCol
  by_cases h : vals.any (fun v => v == Value.na)
  · simp [h]
  · rw [if_neg (by simp_all)]
    exact (map_fill_id _ vals (no_na_of_any_eq_false (Bool.of_not_eq_true h))).symm

theorem fillCol_num {dt : Dtype} (hdt : dt ≠ Dtype.object) (vals : List Value) {m : ℚ}
    (hm : median? (vals.filterMap asQ?) = some m) :
    fillCol dt vals = vals.map (fun v => if v = Value.na then Value.float m else v) := by
  unfold fillCol
  by_cases h : vals.any (fun v => v == Value.na)
  · simp [h, hdt, hm]
  · rw [if_neg (by simp_all)]
    exact (map_fill_id _ vals (no_na_of_any_eq_false (Bool.of_not_eq_true h))).symm

theorem fillCol_nonum {dt : Dtype} (hdt : dt ≠ Dtype.object) (vals : List Value)
    (h : vals.filterMap asQ? = []) : fillCol dt vals = vals := by
  unfold fillCol
  by_cases hna : vals.any (fun v => v == Value.na)
  · simp [hna, hdt, h, median?]
  · simp [hna]

theorem median?_isSome {qs : List ℚ} (h : qs ≠ []) : (median? qs).isSome := by
  simp only [median?, if_neg h]
  split <;> simp

theorem nullHandle_col {f : Frame} (hf : Rect f) {j : Nat} {nm : String} {dt : Dtype}
    (h : f.header[j]? = some (nm, dt)) :
    (nullHandle f).header[j]? = some (nm, dt) ∧
    getCol (nullHandle f).rows j = fillCol dt (getCol f.rows j) :=
  mapCols_col (fun _ vals => fillCol_length _ vals) hf h

theorem nullHandle_rect {f : Frame} (hf : Rect f) : Rect (nullHandle f) :=
  mapCols_rect (fun _ vals => fillCol_length _ vals) hf

theorem mem_map_fill_ne_na {w : Value} (hw : w ≠ Value.na) (vals : List Value) :
    ∀ v' ∈ vals.map (fun v => if v = Value.na then w else v), v' ≠ Value.na := by
  intro v' hv'
  rcases List.mem_map.mp hv' with ⟨v, hv, rfl⟩
  by_cases hna : v = Value.na
  · simpa [hna] using hw
  · simpa [hna] using hna

/-- Claim C2, amended: after the Null Handler runs, a text column never
keeps a missing marker, and neither does a column with at least one
numeric cell; but a non-text column without a single numeric cell — in
particular a fully missing numeric column, whose median is undefined — is
left entirely unchanged, markers included, and the stage still completes
and the pipeline continues. (The original claim, that no column at all
keeps a marker, fails on a fully missing numeric column; the script also
surfaces no skip-specific warning, only its generic null-count listing.) -/
theorem claim_C2 (f : Frame) (hf : Rect f) (j : Nat) (nm : String) (dt : Dtype)
    (h : f.header[j]? = some (nm, dt)) :
    ((dt = Dtype.object ∨ ∃ v ∈ getCol f.rows j, (asQ? v).isSome) →
      ∀ v ∈ getCol (nullHandle f).rows j, v ≠ Value.na) ∧
    ((dt ≠ Dtype.object ∧ ∀ v ∈ getCol f.rows j, v = Value.na) →
      getCol (nullHandle f).rows j = getCol f.rows j) := by
  have hcol := (nullHandle_col hf h).2
  constructor
  · rintro (hdt | ⟨v, hv, hq⟩)
    · rw [hcol, hdt, fillCol_object]
      exact mem_map_fill_ne_na (by simp) _
    · by_cases hdt : dt = Dtype.object
      · rw [hcol, hdt, fillCol_object]
        exact mem_map_fill_ne_na (by simp) _
      · obtain ⟨q, hq'⟩ := Option.isSome_iff_exists.mp hq
        have hne : (getCol f.rows j).filterMap asQ? ≠ [] := by
          intro hnil
          have : q ∈ (getCol f.rows j).filterMap asQ? :=
            List.mem_filterMap.mpr ⟨v, hv, hq'⟩
          rw [hnil] at this
          simp at this
        obtain ⟨m, hm⟩ := Option.isSome_iff_exists.mp (median?_isSome hne)
        rw [hcol, fillCol_num hdt _ hm]
        exact mem_map_fill_ne_na (by simp) _
  · rintro ⟨hdt, hall⟩
    rw [hcol, fillCol_nonum hdt _ (List.filterMap_eq_nil.mpr (fun v hv => by
      rw [hall v hv]; rfl))]

/-- Witness for claim C2 at concrete frames: the text column of exF5w is
marker-free after the stage, and the fully missing float column of exF2 is
left unchanged. -/
theorem claim_C2_witness :
    (∀ v ∈ getCol (nullHandle exF5w).rows 0, v ≠ Value.na) ∧
    getCol (nullHandle exF2).rows 0 = getCol exF2.rows 0 :=
  ⟨(claim_C2 exF5w (by decide) 0 "t" Dtype.object (by decide)).1 (Or.inl rfl),
   (claim_C2 exF2 (by decide) 0 "a" Dtype.float64 (by decide)).2 ⟨by decide, by decide⟩⟩

/-- Counterexample to claim C2 as stated: after the Null Handler runs on a
frame whose only column is a fully missing float column, that column still
contains the missing marker. -/
theorem claim_C2_cex : Value.na ∈ getCol (nullHandle exF2).rows 0 := by decide

/-- Claim C5, amended: for a text column the Null Handler replaces every
missing marker with the literal string Unknown, capitalized — not the
lowercase unknown the claim states; for a non-text column whose median
over the non-missing entries exists, it replaces every marker with that
median. -/
theorem claim_C5 (f : Frame) (hf : Rect f) (j : Nat) (nm : String) (dt : Dtype)
    (h : f.header[j]? = some (nm, dt)) :
    (dt = Dtype.object →
      getCol (nullHandle f).rows j
        = (getCol f.rows j).map (fun v => if v = Value.na then Value.str "Unknown" else v)) ∧
    (dt ≠ Dtype.object → ∀ m : ℚ, median? ((getCol f.rows j).filterMap asQ?) = some m →
      getCol (nullHandle f).rows j
        = (getCol f.rows j).map (fun v => if v = Value.na then Value.float m else v)) := by
  have hcol := (nullHandle_col hf h).2
  constructor
  · intro hdt
    rw [hcol, hdt, fillCol_object]
  · intro hdt m hm
    rw [hcol, fillCol_num hdt _ hm]

/-- Witness for claim C5 at a concrete frame with one text and one float
column, each holding one marker; the float median over the non-missing
cells 1 and 3 is 2. -/
theorem claim_C5_witness :
    getCol (nullHandle exF5w).rows 0
      = (getCol exF5w.rows 0).map (fun v => if v = Value.na then Value.str "Unknown" else v) ∧
    getCol (nullHandle exF5w).rows 1
      = (getCol exF5w.rows 1).map (fun v => if v = Value.na then Value.float 2 else v) :=
  ⟨(claim_C5 exF5w (by decide) 0 "t" Dtype.object (by decide)).1 rfl,
   (claim_C5 exF5w (by decide) 1 "m" Dtype.float64 (by decide)).2 (by decide) 2 (by decide)⟩

/-- Counterexample to claim C5 as stated: on a frame with a text column and
a float column that each hold a marker in their single row, the text
marker becomes the capitalized string Unknown, not the claimed lowercase
unknown, and the fully missing float column keeps its marker instead of
receiving a median. -/
theorem claim_C5_cex :
    getCol (nullHandle exF5c).rows 0 = [Value.str "Unknown"] ∧
    Value.str "Unknown" ≠ Value.str "unknown" ∧
    getCol (nullHandle exF5c).rows 1 = [Value.na] := by
  exact ⟨by decide, by decide, by decide⟩

theorem dropDupsAux_eq_keepFirstGo :
    ∀ (l : List (List Value)) (seen pre : List (List Value)),
    (∀ x, x ∈ seen ↔ x ∈ pre) →
    dropDupsAux seen l = keepFirstGo pre l
  | [], _, _, _ => rfl
  | r :: rest, seen, pre, h => by
    have hmem : ∀ x, x ∈ r :: seen ↔ x ∈ pre ++ [r] := by
      intro x
      simp [List.mem_cons, List.mem_append, h x, or_comm]
    by_cases hr : r ∈ seen
    · rw [dropDupsAux, if_pos hr, keepFirstGo, if_pos ((h r).mp hr)]
      simpa using dropDupsAux_eq_keepFirstGo rest (r :: seen) (pre ++ [r]) hmem
    · rw [dropDupsAux, if_neg hr, keepFirstGo, if_neg (fun hp => hr ((h r).mpr hp))]
      simpa using dropDupsAux_eq_keepFirstGo rest (r :: seen) (pre ++ [r]) hmem

theorem dropDupsAux_sublist :
    ∀ (l seen : List (List Value)), List.Sublist (dropDupsAux seen l) l
  | [], _ => List.Sublist.refl []
  | r :: rest, seen => by
    by_cases hr : r ∈ seen
    · rw [dropDupsAux, if_pos hr]
      exact List.Sublist.cons r (dropDupsAux_sublist rest (r :: seen))
    · rw [dropDupsAux, if_neg hr]
      exact List.Sublist.cons₂ r (dropDupsAux_sublist rest (r :: seen))

theorem dupCountAux_add_length :
    ∀ (l seen : List (List Value)),
    dupCountAux seen l + (dropDupsAux seen l).length = l.length
  | [], _ => rfl
  | r :: rest, seen => by
    have ih := dupCountAux_add_length rest (r :: seen)
    by_cases hr : r ∈ seen
    · rw [dupCountAux, dropDupsAux, if_pos hr, if_pos hr]
      simpa using by omega
    · rw [dupCountAux, dropDupsAux, if_neg hr, if_neg hr]
      simp only [List.length_cons]
      omega

/-- Claim C9: the Duplicate Remover keeps exactly those rows that differ
from every earlier row (keeping the first occurrence of each duplicate
group, as keepFirstGo walks the rows), preserves the relative order of the
kept rows (the result is a sublist of the input), leaves the header alone,
and the count it reports equals the number of rows removed. -/
theorem claim_C9 (f : Frame) :
    (dropDups f).header = f.header ∧
    (dropDups f).rows = keepFirstGo [] f.rows ∧
    List.Sublist (dropDups f).rows f.rows ∧
    dupCount f + (dropDups f).rows.length = f.rows.length :=
  ⟨rfl,
   dropDupsAux_eq_keepFirstGo f.rows [] [] (fun x => Iff.rfl),
   dropDupsAux_sublist f.rows [],
   dupCountAux_add_length f.rows []⟩

/-- Claim C3, amended: the Outlier Filter is a no-op that reports zero
outliers when the frame has zero numeric columns; but the script computes
and removes outliers whenever at least one numeric column exists — there
is no two-column guard, so the original claim fails for frames with
exactly one numeric column. -/
theorem claim_C3 (f : Frame) (h : numericIdxs f = []) :
    outlierFilter f = f ∧ outlierCount f = 0 := by
  have hrow : ∀ r, rowOutlier f r = false := by
    intro r
    rw [rowOutlier, h]
    rfl
  constructor
  · have hfilter : f.rows.filter (fun r => !rowOutlier f r) = f.rows :=
      List.filter_eq_self.mpr (fun r _ => by rw [hrow r]; rfl)
    show ({ header := f.header, rows := f.rows.filter (fun r => !rowOutlier f r) } : Frame) = f
    rw [hfilter]
  · exact List.countP_eq_zero.mpr (fun r _ => by simp [hrow r])

/-- Witness for claim C3: on a frame with a single text column the Outlier
Filter changes nothing and reports zero. -/
theorem claim_C3_witness : outlierFilter exF3w = exF3w ∧ outlierCount exF3w = 0 :=
  claim_C3 exF3w (by decide)

/-- Counterexample to claim C3 as stated: a frame with exactly one numeric
column — ten zeros and a one — is not left alone: the stage flags the one
(its z-score is sqrt 10 > 3) and removes that row, reporting one outlier
rather than zero. -/
theorem claim_C3_cex :
    (numericIdxs exF3).length = 1 ∧ outlierCount exF3 = 1 ∧
    (outlierFilter exF3).rows.length = 10 := by
  exact ⟨by decide, by decide, by decide⟩

/-- Claim C4, amended: after the Outlier Filter runs on a frame with at
least two numeric columns, every retained value of every fully numeric
column is within three population standard deviations of the mean — where
mean and variance are those of the column as it stood before the removal,
the statistics the filter actually scored against (stated squared:
(v - m) ^ 2 <= t with t nine times the variance). With respect to the
statistics of the cleaned frame itself the bound can fail, since the
filter removes rows in one pass without re-scoring. -/
theorem claim_C4 (f : Frame) (h2 : 2 ≤ (numericIdxs f).length) (j : Nat)
    (hj : j ∈ numericIdxs f) (m t : ℚ) (hs : colStats f j = some (m, t)) :
    ∀ r ∈ (outlierFilter f).rows, (((asQ? (r.getD j Value.na)).getD 0) - m) ^ 2 ≤ t := by
  intro r hr
  have hmem := List.mem_filter.mp hr
  have hout : rowOutlier f r = false := by
    have := hmem.2
    cases hcase : rowOutlier f r
    · rfl
    · rw [hcase] at this; simp at this
  rw [rowOutlier] at hout
  have hj' := List.any_eq_false.mp hout j hj
  rw [hs] at hj'
  simp only [decide_eq_true_eq, not_lt] at hj'
  exact hj'

/-- Witness for claim C4 at a concrete frame with two numeric columns and
no outliers: the first column has mean 1 and nine times its variance is 9,
and the first retained row satisfies the bound. -/
theorem claim_C4_witness :
    2 ≤ (numericIdxs exF4w).length ∧ colStats exF4w 0 = some (1, 9) ∧
    mkRow2 0 0 ∈ (outlierFilter exF4w).rows ∧
    (((asQ? ((mkRow2 0 0).getD 0 Value.na)).getD 0) - 1) ^ 2 ≤ 9 :=
  ⟨by decide, by decide, by decide,
   claim_C4 exF4w (by decide) 0 (by decide) 1 9 (by decide) (mkRow2 0 0) (by decide)⟩

/-- Counterexample to claim C4 as stated: on a two-numeric-column frame
whose first column is ten zeros, a five and a thousand, one pass removes
only the thousand; in the cleaned frame the retained five then lies more
than three standard deviations from the recomputed column mean, so the
claimed bound over the cleaned data fails. -/
theorem claim_C4_cex :
    2 ≤ (numericIdxs exF4).length ∧ ¬ zBoundOk (outlierFilter exF4) := by
  exact ⟨by decide, by decide⟩

theorem pyTrim_subset {l : List Char} : ∀ c ∈ pyTrim l, c ∈ l := by
  intro c hc
  rw [pyTrim, List.mem_reverse] at hc
  have hsub1 : List.Sublist (((l.dropWhile pyIsSpace).reverse).dropWhile pyIsSpace)
      ((l.dropWhile pyIsSpace).reverse) := List.dropWhile_sublist pyIsSpace
  have h1 := hsub1.subset hc
  rw [List.mem_reverse] at h1
  exact (List.dropWhile_sublist pyIsSpace).subset h1

theorem mem_cleanName {c : Char} {l : List Char} (hc : c ∈ cleanName l) :
    ∃ e ∈ l, c = (if e.toLower = ' ' then '_' else e.toLower) ∧
      (isWordChar c || pyIsSpace c) = true := by
  rw [cleanName] at hc
  have hmem := List.mem_filter.mp hc
  rcases List.mem_map.mp hmem.1 with ⟨d, hd, rfl⟩
  rcases List.mem_map.mp hd with ⟨e, he, rfl⟩
  exact ⟨e, pyTrim_subset e he, rfl, hmem.2⟩

/-- Claim C8, amended: after the Column Normalizer runs, every character of
every column name is a word character or a whitespace character, and no
space character remains (each space was replaced by its own underscore, so
a run of k spaces becomes k underscores, not one); but characters outside
the claimed lowercase pattern can survive, because the regex of line 85
deletes only characters that are neither word characters nor whitespace —
interior non-space whitespace such as a tab stays. For names built only
from lowercase letters, digits, underscores and spaces the cleaned name
does match the pattern. -/
theorem claim_C8 :
    (∀ f : Frame, ∀ p ∈ (cleanNames f).header, ∀ c ∈ (Prod.fst p).data,
      (isWordChar c || pyIsSpace c) = true ∧ c ≠ ' ') ∧
    (∀ s : String, (∀ c ∈ s.data, c ∈ lowerPatChars ∨ c = ' ') →
      namePatOk (cleanNameStr s)) := by
  constructor
  · intro f p hp c hc
    rcases List.mem_map.mp hp with ⟨q, _, rfl⟩
    have hc' : c ∈ cleanName q.1.data := hc
    rcases mem_cleanName hc' with ⟨e, _, hform, hkeep⟩
    refine ⟨hkeep, ?_⟩
    by_cases hsp : e.toLower = ' '
    · rw [hform, if_pos hsp]
      decide
    · rw [hform, if_neg hsp]
      exact hsp
  · intro s hs c hc
    have hc' : c ∈ cleanName s.data := hc
    rcases mem_cleanName hc' with ⟨e, he, hform, _⟩
    have hlower : ∀ x ∈ lowerPatChars, x.toLower = x := by decide
    have hnospace : ∀ x ∈ lowerPatChars, x ≠ ' ' := by decide
    have hpat : ∀ x ∈ lowerPatChars, ('a' ≤ x ∧ x ≤ 'z') ∨ ('0' ≤ x ∧ x ≤ '9') ∨ x = '_' := by
      decide
    rcases hs e he with hep | rfl
    · rw [hform, hlower e hep, if_neg (hnospace e hep)]
      exact hpat e hep
    · rw [hform]
      norm_num
      decide

/-- Witness for claim C8: the spaced name of exF8w cleans to my_col, whose
head satisfies the character invariant, and a name of lowercase letters
and spaces cleans into the claimed pattern. -/
theorem claim_C8_witness :
    ((isWordChar 'm' || pyIsSpace 'm') = true ∧ 'm' ≠ ' ') ∧
    namePatOk (cleanNameStr "ab c") :=
  ⟨claim_C8.1 exF8w ("my_col", Dtype.object) (by decide) 'm' (by decide),
   claim_C8.2 "ab c" (by decide)⟩

/-- Counterexample to claim C8 as stated: the column name with an interior
tab survives the Column Normalizer unchanged — the tab is whitespace, so
the regex keeps it — and the result does not match the lowercase pattern
the claim asserts for every input name. -/
theorem claim_C8_cex :
    ¬ namePatOk (cleanNameStr "a\tb") ∧
    ((cleanNames exF8c).header.getD 0 ("", Dtype.object)).1 = "a\tb" := by
  exact ⟨by decide, by decide⟩

theorem typeCorrectCol_length (dt : Dtype) (vals : List Value) :
    ((typeCorrectCol dt vals).2).length = vals.length := by
  cases dt with
  | object =>
    cases hn : seqOpt (vals.map cellToNum?) with
    | some ws =>
      simp only [typeCorrectCol, hn]
      rw [seqOpt_length _ _ hn, List.length_map]
    | none =>
      cases hd : seqOpt (vals.map cellToDate?) with
      | some ws =>
        simp only [typeCorrectCol, hn, hd]
        rw [seqOpt_length _ _ hd, List.length_map]
      | none => simp [typeCorrectCol, hn, hd]
  | int64 =>
    by_cases h : vals.any (fun v => containsAlpha (render v)) <;> simp [typeCorrectCol, h]
  | float64 =>
    by_cases h : vals.any (fun v => containsAlpha (render v)) <;> simp [typeCorrectCol, h]
  | datetime64 => rfl

theorem typeCorrect_col {f : Frame} (hf : Rect f) {j : Nat} {nm : String} {dt : Dtype}
    (h : f.header[j]? = some (nm, dt)) :
    (typeCorrect f).header[j]? = some (nm, (typeCorrectCol dt (getCol f.rows j)).1) ∧
    getCol (typeCorrect f).rows j = (typeCorrectCol dt (getCol f.rows j)).2 :=
  mapCols_col typeCorrectCol_length hf h

theorem all_num_of_nonmissing {vals : List Value}
    (h : ∀ v ∈ vals, v ≠ Value.na → (cellToNum? v).isSome) :
    ∀ v ∈ vals, (cellToNum? v).isSome := by
  intro v hv
  by_cases hna : v = Value.na
  · subst hna; rfl
  · exact h v hv hna

theorem all_date_of_nonmissing {vals : List Value}
    (h : ∀ v ∈ vals, v ≠ Value.na → (cellToDate? v).isSome) :
    ∀ v ∈ vals, (cellToDate? v).isSome := by
  intro v hv
  by_cases hna : v = Value.na
  · subst hna; rfl
  · exact h v hv hna

theorem typeCorrectCol_object_num {vals : List Value}
    (h : ∀ v ∈ vals, (cellToNum? v).isSome) :
    typeCorrectCol Dtype.object vals
      = (inferNumDtype (vals.map (fun v => (cellToNum? v).getD v)),
         vals.map (fun v => (cellToNum? v).getD v)) := by
  simp [typeCorrectCol, seqOpt_map_eq_some vals h]

theorem typeCorrectCol_object_date {vals : List Value}
    (hnum : ∃ v ∈ vals, cellToNum? v = none)
    (h : ∀ v ∈ vals, (cellToDate? v).isSome) :
    typeCorrectCol Dtype.object vals
      = (Dtype.datetime64, vals.map (fun v => (cellToDate? v).getD v)) := by
  simp [typeCorrectCol, seqOpt_map_eq_none vals hnum, seqOpt_map_eq_some vals h]

theorem typeCorrectCol_object_keep {vals : List Value}
    (hnum : ∃ v ∈ vals, cellToNum? v = none)
    (hdate : ∃ v ∈ vals, cellToDate? v = none) :
    typeCorrectCol Dtype.object vals = (Dtype.object, vals) := by
  simp [typeCorrectCol, seqOpt_map_eq_none vals hnum, seqOpt_map_eq_none vals hdate]

/-- Claim C6: for a text column the Type Corrector first attempts the
whole-column numeric parse; only when some non-missing cell fails it does
it attempt the whole-column datetime parse, and a conversion happens only
when every non-missing cell parses under the attempted reading — a single
failing cell under both readings leaves the column exactly as it was.
When every non-missing cell parses as numeric the column converts to the
inferred numeric dtype even if the cells would also parse as dates. -/
theorem claim_C6 (f : Frame) (hf : Rect f) (j : Nat) (nm : String)
    (h : f.header[j]? = some (nm, Dtype.object)) :
    ((∀ v ∈ getCol f.rows j, v ≠ Value.na → (cellToNum? v).isSome) →
      getCol (typeCorrect f).rows j
        = (getCol f.rows j).map (fun v => (cellToNum? v).getD v) ∧
      (typeCorrect f).header[j]?
        = some (nm, inferNumDtype ((getCol f.rows j).map (fun v => (cellToNum? v).getD v)))) ∧
    ((∃ v ∈ getCol f.rows j, v ≠ Value.na ∧ cellToNum? v = none) →
      (∀ v ∈ getCol f.rows j, v ≠ Value.na → (cellToDate? v).isSome) →
      getCol (typeCorrect f).rows j
        = (getCol f.rows j).map (fun v => (cellToDate? v).getD v) ∧
      (typeCorrect f).header[j]? = some (nm, Dtype.datetime64)) ∧
    ((∃ v ∈ getCol f.rows j, v ≠ Value.na ∧ cellToNum? v = none) →
      (∃ v ∈ getCol f.rows j, v ≠ Value.na ∧ cellToDate? v = none) →
      getCol (typeCorrect f).rows j = getCol f.rows j ∧
      (typeCorrect f).header[j]? = some (nm, Dtype.object)) := by
  have hcol := typeCorrect_col hf h
  refine ⟨fun hnum => ?_, fun hnum hdate => ?_, fun hnum hdate => ?_⟩
  · rw [typeCorrectCol_object_num (all_num_of_nonmissing hnum)] at hcol
    exact ⟨hcol.2, hcol.1⟩
  · rcases hnum with ⟨v, hv, _, hvn⟩
    rw [typeCorrectCol_object_date ⟨v, hv, hvn⟩ (all_date_of_nonmissing hdate)] at hcol
    exact ⟨hcol.2, hcol.1⟩
  · rcases hnum with ⟨v, hv, _, hvn⟩
    rcases hdate with ⟨w, hw, _, hwd⟩
    rw [typeCorrectCol_object_keep ⟨v, hv, hvn⟩ ⟨w, hw, hwd⟩] at hcol
    exact ⟨hcol.2, hcol.1⟩

/-- Witness for claim C6: the text column of exF6w parses wholly as
numeric, so it converts and its dtype becomes the inferred numeric one. -/
theorem claim_C6_witness :
    getCol (typeCorrect exF6w).rows 0
      = (getCol exF6w.rows 0).map (fun v => (cellToNum? v).getD v) ∧
    (typeCorrect exF6w).header[0]?
      = some ("s", inferNumDtype ((getCol exF6w.rows 0).map (fun v => (cellToNum? v).getD v))) :=
  (claim_C6 exF6w (by decide) 0 "s" (by decide)).1 (by decide)

/-- Claim C10: on an already numeric column the text fallback of the Type
Corrector fires exactly when the rendering of some cell contains an ASCII
letter; since missing cells render as nan and large floats render in the
scientific form with the letter e, a float column holding only the genuine
numbers 10 ^ 20 and 2 is wholly converted to text, and so is a numeric
column retaining a missing marker. -/
theorem claim_C10 :
    (∀ vals : List Value, (typeCorrectCol Dtype.int64 vals).1 = Dtype.object ↔
        ∃ v ∈ vals, containsAlpha (render v) = true) ∧
    (∀ vals : List Value, (typeCorrectCol Dtype.float64 vals).1 = Dtype.object ↔
        ∃ v ∈ vals, containsAlpha (render v) = true) ∧
    (typeCorrect exF10).header = [("v", Dtype.object)] ∧
    (typeCorrect exF10).rows = [[Value.str "1e+20"], [Value.str "2.0"]] ∧
    (getCol exF10.rows 0).all (fun v => (asQ? v).isSome) = true ∧
    (typeCorrectCol Dtype.float64 [Value.na, Value.float 1]).1 = Dtype.object := by
  refine ⟨fun vals => ?_, fun vals => ?_, by decide, by decide, by decide, by decide⟩
  · by_cases h : vals.any (fun v => containsAlpha (render v)) = true
    · simp only [typeCorrectCol, h, if_true]
      exact iff_of_true trivial (List.any_eq_true.mp h)
    · simp only [typeCorrectCol, h, if_false]
      exact iff_of_false (by simp) (fun hex => h (List.any_eq_true.mpr hex))
  · by_cases h : vals.any (fun v => containsAlpha (render v)) = true
    · simp only [typeCorrectCol, h, if_true]
      exact iff_of_true trivial (List.any_eq_true.mp h)
    · simp only [typeCorrectCol, h, if_false]
      exact iff_of_false (by simp) (fun hex => h (List.any_eq_true.mpr hex))

/-- Claim C7 (spec-modelled: the Category Standardizer does not appear in
src/app.py, so its gender mapping is modelled from the spec, section 4.7):
on a qualifying text column whose normalized name contains gender, the
tokens m and male map to male, f and female map to female, any other
normalized token — unrecognized, empty or null-like — maps to unknown,
and the Gender scenario of the spec standardizes as claimed. -/
theorem claim_C7 :
    genderMap "m" = "male" ∧ genderMap "male" = "male" ∧
    genderMap "f" = "female" ∧ genderMap "female" = "female" ∧
    (∀ s : String, normTok s ≠ "m" → normTok s ≠ "male" →
      normTok s ≠ "f" → normTok s ≠ "female" → genderMap s = "unknown") ∧
    stdCatCol "gender" Dtype.object
        [Value.str "M", Value.str " f ", Value.str "Male", Value.str "", Value.str "NaN"]
      = [Value.str "male", Value.str "female", Value.str "male",
         Value.str "unknown", Value.str "unknown"] := by
  refine ⟨by decide, by decide, by decide, by decide, fun s h1 h2 h3 h4 => ?_, by decide⟩
  rw [genderMap]
  rw [if_neg (by rintro (h | h) <;> [exact h1 h; exact h2 h]),
    if_neg (by rintro (h | h) <;> [exact h3 h; exact h4 h])]

/-- Witness for claim C7: an unrecognized token maps to unknown. -/
theorem claim_C7_witness :
    normTok "x" ≠ "m" ∧ genderMap "x" = "unknown" :=
  ⟨by decide,
   claim_C7.2.2.2.2.1 "x" (by decide) (by decide) (by decide) (by decide)⟩

theorem parseNum?_shape (s : String) (w : Value) (h : parseNum? s = some w) :
    (∃ n : Int, w = Value.int n) ∨ ∃ q : ℚ, w = Value.float q := by
  simp only [parseNum?] at h
  split at h
  · split at h
    · exact absurd h (by simp)
    · split at h
      · exact absurd h (by simp)
      · right; exact ⟨_, (Option.some.inj h).symm⟩
  · split at h
    · exact absurd h (by simp)
    · split at h
      · exact absurd h (by simp)
      · split at h
        · left; exact ⟨_, (Option.some.inj h).symm⟩
        · right; exact ⟨_, (Option.some.inj h).symm⟩

theorem parseDate?_shape (s : String) (w : Value) (h : parseDate? s = some w) :
    ∃ n : Int, w = Value.date n := by
  simp only [parseDate?] at h
  split at h
  · split at h
    · split at h
      · exact ⟨_, (Option.some.inj h).symm⟩
      · exact absurd h (by simp)
    · exact absurd h (by simp)
  · exact absurd h (by simp)

theorem cellToNum?_ne_na {v w : Value} (hv : v ≠ Value.na)
    (h : cellToNum? v = some w) : w ≠ Value.na := by
  cases v with
  | na => exact absurd rfl hv
  | int n => rw [← Option.some.inj h]; simp [cellToNum?]
  | float q => rw [← Option.some.inj h]; simp [cellToNum?]
  | str s =>
    rcases parseNum?_shape s w h with ⟨n, rfl⟩ | ⟨q, rfl⟩ <;> simp
  | date n => exact absurd h (by simp [cellToNum?])

theorem cellToDate?_ne_na {v w : Value} (hv : v ≠ Value.na)
    (h : cellToDate? v = some w) : w ≠ Value.na := by
  cases v with
  | na => exact absurd rfl hv
  | int n => rw [← Option.some.inj h]; simp [cellToDate?]
  | float q => exact absurd h (by simp [cellToDate?])
  | str s =>
    rcases parseDate?_shape s w h with ⟨n, rfl⟩
    simp
  | date n => rw [← Option.some.inj h]; simp [cellToDate?]

theorem typeCorrectCol_cells (dt : Dtype) (vals : List Value)
    (h : ∀ v ∈ vals, v ≠ Value.na) :
    ∀ w ∈ (typeCorrectCol dt vals).2, w ≠ Value.na := by
  cases dt with
  | object =>
    cases hn : seqOpt (vals.map cellToNum?) with
    | some ws =>
      intro w hw
      simp only [typeCorrectCol, hn] at hw
      have hmem : some w ∈ vals.map cellToNum? := seqOpt_mem _ _ hn w hw
      rcases List.mem_map.mp hmem with ⟨v, hv, hveq⟩
      exact cellToNum?_ne_na (h v hv) hveq
    | none =>
      cases hd : seqOpt (vals.map cellToDate?) with
      | some ws =>
        intro w hw
        simp only [typeCorrectCol, hn, hd] at hw
        have hmem : some w ∈ vals.map cellToDate? := seqOpt_mem _ _ hd w hw
        rcases List.mem_map.mp hmem with ⟨v, hv, hveq⟩
        exact cellToDate?_ne_na (h v hv) hveq
      | none =>
        intro w hw
        simp only [typeCorrectCol, hn, hd] at hw
        exact h w hw
  | int64 =>
    intro w hw
    by_cases hb : vals.any (fun v => containsAlpha (render v)) = true
    · simp only [typeCorrectCol, hb, if_true] at hw
      rcases List.mem_map.mp hw with ⟨v, _, rfl⟩
      simp
    · simp only [typeCorrectCol, hb, if_false] at hw
      exact h w hw
  | float64 =>
    intro w hw
    by_cases hb : vals.any (fun v => containsAlpha (render v)) = true
    · simp only [typeCorrectCol, hb, if_true] at hw
      rcases List.mem_map.mp hw with ⟨v, _, rfl⟩
      simp
    · simp only [typeCorrectCol, hb, if_false] at hw
      exact h w hw
  | datetime64 =>
    intro w hw
    exact h w hw

theorem asQ?_isSome_of_cellOk {dt : Dtype} {v : Value} (hdt : dt ≠ Dtype.object)
    (hcsv : dt ≠ Dtype.datetime64) (hok : cellOk dt v) (hv : v ≠ Value.na) :
    (asQ? v).isSome := by
  cases dt <;> cases v <;> simp_all [cellOk, asQ?]

theorem nullHandle_dichotomy {f : Frame} (hf : Rect f) (hcsv : CsvDtypes f)
    (hwt : WellTyped f) {j : Nat} (hj : j < f.header.length) :
    (∀ v ∈ getCol (nullHandle f).rows j, v ≠ Value.na) ∨
    (∀ v ∈ getCol (nullHandle f).rows j, v = Value.na) := by
  have hsome : f.header[j]? = some (f.header.getD j ("", Dtype.object)) := by
    rw [List.getD_eq_getElem?_getD, List.getElem?_eq_getElem hj]
    rfl
  set p := f.header.getD j ("", Dtype.object) with hp
  have hcol := (nullHandle_col hf
    (show f.header[j]? = some (p.1, p.2) by rw [hsome])).2
  by_cases hdt : p.2 = Dtype.object
  · left
    rw [hcol, hdt, fillCol_object]
    exact mem_map_fill_ne_na (by simp) _
  · have hdt2 : p.2 ≠ Dtype.datetime64 := by
      have : p ∈ f.header := by
        rw [hp, List.getD_eq_getElem?_getD, List.getElem?_eq_getElem hj]
        exact List.getElem_mem hj
      exact hcsv p this
    by_cases hnil : (getCol f.rows j).filterMap asQ? = []
    · right
      rw [hcol, fillCol_nonum hdt _ hnil]
      intro v hv
      by_contra hne
      rcases mem_getCol.mp hv with ⟨r, hr, rfl⟩
      have hok := hwt j hj r hr
      have := asQ?_isSome_of_cellOk hdt hdt2 hok hne
      obtain ⟨q, hq⟩ := Option.isSome_iff_exists.mp this
      have hqmem : q ∈ (getCol f.rows j).filterMap asQ? :=
        List.mem_filterMap.mpr ⟨r.getD j Value.na, mem_getCol.mpr ⟨r, hr, rfl⟩, hq⟩
      rw [hnil] at hqmem
      simp at hqmem
    · obtain ⟨m, hm⟩ := Option.isSome_iff_exists.mp (median?_isSome hnil)
      left
      rw [hcol, fillCol_num hdt _ hm]
      exact mem_map_fill_ne_na (by simp) _

theorem dropDupsAux_mem : ∀ (l seen : List (List Value)) (r : List Value),
    r ∈ dropDupsAux seen l → r ∈ l
  | [], _, r, hr => by simp [dropDupsAux] at hr
  | x :: rest, seen, r, hr => by
    by_cases hx : x ∈ seen
    · rw [dropDupsAux, if_pos hx] at hr
      exact List.mem_cons_of_mem x (dropDupsAux_mem rest (x :: seen) r hr)
    · rw [dropDupsAux, if_neg hx] at hr
      rcases List.mem_cons.mp hr with rfl | hr'
      · exact List.mem_cons_self r rest
      · exact List.mem_cons_of_mem x (dropDupsAux_mem rest (x :: seen) r hr')

theorem dichotomy_mono {rowsA rowsB : List (List Value)}
    (hsub : ∀ r ∈ rowsB, r ∈ rowsA) (j : Nat)
    (h : (∀ v ∈ getCol rowsA j, v ≠ Value.na) ∨ (∀ v ∈ getCol rowsA j, v = Value.na)) :
    (∀ v ∈ getCol rowsB j, v ≠ Value.na) ∨ (∀ v ∈ getCol rowsB j, v = Value.na) := by
  rcases h with h | h
  · left
    intro v hv
    rcases mem_getCol.mp hv with ⟨r, hr, rfl⟩
    exact h _ (mem_getCol.mpr ⟨r, hsub r hr, rfl⟩)
  · right
    intro v hv
    rcases mem_getCol.mp hv with ⟨r, hr, rfl⟩
    exact h _ (mem_getCol.mpr ⟨r, hsub r hr, rfl⟩)

theorem nunique_exists_ne_na {vals : List Value} (h : 2 ≤ nuniqueVals vals) :
    ∃ w ∈ vals, w ≠ Value.na := by
  have hne : (vals.filter (fun v => !(v == Value.na))).dedup ≠ [] := by
    intro hnil
    rw [nuniqueVals, hnil] at h
    simp at h
  obtain ⟨w, hw⟩ := List.exists_mem_of_ne_nil _ hne
  have hw' := List.mem_dedup.mp hw
  have hmem := List.mem_filter.mp hw'
  refine ⟨w, hmem.1, ?_⟩
  have := hmem.2
  simp at this
  exact this

theorem pruneConst_nona {f : Frame}
    (hdich : ∀ j, j < f.header.length →
      (∀ v ∈ getCol f.rows j, v ≠ Value.na) ∨ (∀ v ∈ getCol f.rows j, v = Value.na)) :
    ∀ r ∈ (pruneConst f).rows, ∀ v ∈ r, v ≠ Value.na := by
  intro r' hr' v hv
  rcases List.mem_map.mp hr' with ⟨r, hr, rfl⟩
  rcases List.mem_map.mp hv with ⟨j, hjk, rfl⟩
  have hjmem := List.mem_filter.mp hjk
  have hjlt : j < f.header.length := List.mem_range.mp hjmem.1
  have hnu : 2 ≤ nuniqueVals (getCol f.rows j) := of_decide_eq_true hjmem.2
  obtain ⟨w, hwmem, hwne⟩ := nunique_exists_ne_na hnu
  rcases hdich j hjlt with hok | hbad
  · exact hok _ (mem_getCol.mpr ⟨r, hr, rfl⟩)
  · exact absurd (hbad w hwmem) hwne

theorem pruneConst_rect (f : Frame) : Rect (pruneConst f) := by
  intro r hr
  rcases List.mem_map.mp hr with ⟨r0, _, rfl⟩
  simp [pruneConst]

/-- Claim C1, amended: the output of one pipeline run contains no missing
markers, so a second run fills zero nulls; but the output is not in
general a fixed point of the pipeline — the type-correction stage can
merge text values that were distinct (for instance the strings 1.0 and
1.00 both become the number 1), so a second run can still remove duplicate
rows, constant columns, and outliers. The hypotheses say the frame is
rectangular, its dtypes are the ones a CSV load can produce, and every
cell is admissible for the dtype of its column. -/
theorem claim_C1 (f : Frame) (hf : Rect f) (hcsv : CsvDtypes f) (hwt : WellTyped f) :
    nullTotal (pipeline f) = 0 := by
  have hf1 : Rect (nullHandle f) := nullHandle_rect hf
  have hlen1 : (nullHandle f).header.length = f.header.length :=
    mapCols_header_length _ f
  have hdich1 : ∀ j, j < (nullHandle f).header.length →
      (∀ v ∈ getCol (nullHandle f).rows j, v ≠ Value.na) ∨
      (∀ v ∈ getCol (nullHandle f).rows j, v = Value.na) := by
    intro j hj
    exact nullHandle_dichotomy hf hcsv hwt (hlen1 ▸ hj)
  have hdich2 : ∀ j, j < (dropDups (nullHandle f)).header.length →
      (∀ v ∈ getCol (dropDups (nullHandle f)).rows j, v ≠ Value.na) ∨
      (∀ v ∈ getCol (dropDups (nullHandle f)).rows j, v = Value.na) := by
    intro j hj
    exact dichotomy_mono (fun r hr => dropDupsAux_mem _ _ r hr) j (hdich1 j hj)
  have hnona3 : ∀ r ∈ (pruneConst (dropDups (nullHandle f))).rows, ∀ v ∈ r, v ≠ Value.na :=
    pruneConst_nona hdich2
  have hrect3 : Rect (pruneConst (dropDups (nullHandle f))) := pruneConst_rect _
  have hnona4 : ∀ r ∈ (cleanNames (pruneConst (dropDups (nullHandle f)))).rows,
      ∀ v ∈ r, v ≠ Value.na := hnona3
  have hrect4 : Rect (cleanNames (pruneConst (dropDups (nullHandle f)))) := by
    intro r hr
    rw [cleanNames, List.length_map]
    exact hrect3 r hr
  have hnona5 : ∀ r ∈ (outlierFilter (cleanNames (pruneConst (dropDups (nullHandle f))))).rows,
      ∀ v ∈ r, v ≠ Value.na := by
    intro r hr
    exact hnona4 r (List.mem_filter.mp hr).1
  have hrect5 : Rect (outlierFilter (cleanNames (pruneConst (dropDups (nullHandle f))))) := by
    intro r hr
    exact hrect4 r (List.mem_filter.mp hr).1
  have hnona6 : ∀ r ∈ (pipeline f).rows, ∀ v ∈ r, v ≠ Value.na :=
    foldCols_cells typeCorrectCol_cells _ _ hrect5 typeCorrectCol_length hnona5
  rw [nullTotal]
  apply List.sum_eq_zero
  intro x hx
  rcases List.mem_map.mp hx with ⟨r, hr, rfl⟩
  apply List.countP_eq_zero.mpr
  intro v hv
  simp [hnona6 r hr v hv]

/-- Witness for claim C1: the concrete frame exD1 satisfies the hypotheses
and its pipeline output holds no missing markers. -/
theorem claim_C1_witness :
    Rect exD1 ∧ CsvDtypes exD1 ∧ WellTyped exD1 ∧ nullTotal (pipeline exD1) = 0 :=
  ⟨by decide, by decide, by decide, claim_C1 exD1 (by decide) (by decide) (by decide)⟩

/-- Counterexample to claim C1 as stated: one pipeline run turns the text
column of exD1 into the numeric column 1, 1, so a second run finds and
removes a duplicate row (and then prunes the now constant column); the
cleaned frame is not a fixed point and the second run removes one
duplicate instead of zero. -/
theorem claim_C1_cex :
    dupCount (pipeline exD1) = 1 ∧ pipeline (pipeline exD1) ≠ pipeline exD1 := by
  exact ⟨by decide, by decide⟩

/-- Witness for claim C9 at scenario 4 of the spec: of three identical
rows exactly one instance survives and the report counts two removed. -/
theorem claim_C9_witness :
    ((dropDups exF9).header = exF9.header ∧
      (dropDups exF9).rows = keepFirstGo [] exF9.rows ∧
      List.Sublist (dropDups exF9).rows exF9.rows ∧
      dupCount exF9 + (dropDups exF9).rows.length = exF9.rows.length) ∧
    dupCount exF9 = 2 ∧ (dropDups exF9).rows = [[Value.int 1, Value.str "a"]] :=
  ⟨claim_C9 exF9, by decide, by decide⟩

/-- Witness for claim C10: a numeric column holding only a missing marker
is converted to text, by the equivalence of the claim. -/
theorem claim_C10_witness :
    (typeCorrectCol Dtype.int64 [Value.na]).1 = Dtype.object :=
  (claim_C10.1 [Value.na]).mpr ⟨Value.na, by decide, by decide⟩

end BizPulse

